import Mathlib

/-
Verification development for the Delphes-interface conversion module
(`SimDelphesInterface/src/DelphesSimulation.cpp`): the genealogy-graph
builder (`ConvertMCParticles`), the truth-match resolvers for electrons
(`ConvertParticles`) and photons (`ConvertPhotons`), and the jet
pass-through converter (`ConvertJets`).

Modelling conventions:
- Numeric fields (momenta, positions) are only ever transcribed, never
  computed with, by the properties under study; they are modelled as `Int`.
- The C++ `-1` sentinels for absent mother/daughter ranges and for
  unknown side-table slots are kept as `Int` values `-1`, exactly as in
  the source.
- Vertex identity (podio object identity) is modelled as the index into
  the growing `colGenVertices` arena; structural sharing of a vertex is
  equality of arena indices.
- Out-of-bounds container accesses are undefined behaviour in the C++
  (flagged as fatal precondition violations by the design document);
  the embedding makes them total by returning the `-1`/`none` defaults,
  which is only exercised outside the documented input contract.
-/

set_option maxRecDepth 4000

/-- One Delphes `Candidate` record of the flat input array: PDG type,
status, charge, four-momentum, production spacetime position and the
inclusive mother/daughter index ranges (`-1` denotes "none"). -/
structure Candidate where
  PID : Int
  Status : Int
  Charge : Int
  Px : Int
  Py : Int
  Pz : Int
  Mass : Int
  X : Int
  Y : Int
  Z : Int
  T : Int
  M1 : Int
  M2 : Int
  D1 : Int
  D2 : Int
deriving DecidableEq, Repr

/-- Modelled from the spec: the repository header `ParticleStatus.h` is not
under `src/`; per the design document it defines distinct status-bit values
`Beam`, `Stable`, `Decayed`, `Matched`, `Unmatched`, `MatchInCascade`.
`DefaultBits` models the default-initialised `Bits` field of a freshly
constructed `fcc::BareParticle`, which is retained whenever no assignment
path runs (design document section 9). -/
inductive ParticleStatus where
  | Beam
  | Stable
  | Decayed
  | Matched
  | Unmatched
  | MatchInCascade
  | DefaultBits
deriving DecidableEq, Repr

/-- A `fcc::GenVertex`: position and proper time `Ctau`. -/
structure GenVertex where
  X : Int
  Y : Int
  Z : Int
  Ctau : Int
deriving DecidableEq, Repr

/-- An emitted `fcc::MCParticle`: bare fields copied from the candidate,
the assigned status bits, and the optional start/end vertex references
(arena indices into the vertex collection). -/
structure MCParticleOut where
  Typ : Int
  Status : Int
  Charge : Int
  Px : Int
  Py : Int
  Pz : Int
  Mass : Int
  Vx : Int
  Vy : Int
  Vz : Int
  Bits : ParticleStatus
  StartVertex : Option Nat
  EndVertex : Option Nat
deriving DecidableEq, Repr

/-- State of `ConvertMCParticles` while scanning the candidate array:
the emitted particles (`colMCParticles`), the vertex arena
(`colGenVertices`) and the side table `m_vecPartProdVtxIDDecVtxID`
(one `(production, decay)` slot pair per candidate index, `-1` unknown). -/
structure BState where
  parts : List MCParticleOut
  verts : List GenVertex
  table : List (Int × Int)
deriving DecidableEq, Repr

/-- Read a side-table slot pair (vector indexing; negative or
out-of-range indices fall back to the unknown pair). -/
def tblGet (t : List (Int × Int)) (i : Int) : Int × Int :=
  if 0 ≤ i then t.getD i.toNat (-1, -1) else (-1, -1)

/-- Write a side-table slot pair (no-op outside the table). -/
def tblSet (t : List (Int × Int)) (i : Int) (v : Int × Int) : List (Int × Int) :=
  if 0 ≤ i then t.set i.toNat v else t

/-- Inclusive integer range `[lo, hi]` as iterated by the C++ `for` loops
(`for (int i=lo; i<=hi; i++)`); empty when `hi < lo`. -/
def intRange (lo hi : Int) : List Int :=
  (List.range (hi + 1 - lo).toNat).map (fun k => lo + (k : Int))

/-- The mother loop of `ConvertMCParticles` (source lines 401-403): for
every `iMother` in `[M1, M2]`, if that slot's decay entry is still `-1`,
record the current candidate index `j` as its decay entry. -/
def motherLoop (j : Nat) (t : List (Int × Int)) (m1 m2 : Int) : List (Int × Int) :=
  (intRange m1 m2).foldl
    (fun t i =>
      let p := tblGet t i
      if p.2 = -1 then tblSet t i (p.1, (j : Int)) else t) t

/-- The daughter loop of `ConvertMCParticles` (source lines 423-425): for
every `iDaughter` in `[D1, D2]` with `iDaughter ≥ 0`, if that slot's
DECAY entry is still `-1`, record `j` as its PRODUCTION entry (the
source guards on `.second` while writing `.first`). -/
def daughterLoop (j : Nat) (t : List (Int × Int)) (d1 d2 : Int) : List (Int × Int) :=
  (intRange d1 d2).foldl
    (fun t i =>
      let p := tblGet t i
      if 0 ≤ i ∧ p.2 = -1 then tblSet t i ((j : Int), p.2) else t) t

/-- Status-bit assignment of `ConvertMCParticles` (source lines 374-376):
first match wins among `M1 == -1 → Beam`, `D1 == -1 → Stable`,
otherwise `Decayed`. -/
def statusBitsOf (c : Candidate) : ParticleStatus :=
  if c.M1 = -1 then ParticleStatus.Beam
  else if c.D1 = -1 then ParticleStatus.Stable
  else ParticleStatus.Decayed

/-- Production-vertex resolution for candidate `j` (source lines 386-400):
with a mother range present, reuse the end vertex of the particle recorded
in `j`'s production slot if known, otherwise create a fresh vertex at `j`'s
own position with `Ctau = T`. Returns the start-vertex reference and the
updated vertex arena. -/
def prodResolve (s : BState) (j : Nat) (c : Candidate) : Option Nat × List GenVertex :=
  if c.M1 = -1 then (none, s.verts)
  else
    let idStart := (tblGet s.table (j : Int)).1
    if idStart = -1 then
      (some s.verts.length, s.verts ++ [⟨c.X, c.Y, c.Z, c.T⟩])
    else
      ((if 0 ≤ idStart then (s.parts.get? idStart.toNat).bind MCParticleOut.EndVertex
        else none), s.verts)

/-- Decay-vertex resolution for candidate `j` (source lines 406-422):
with a daughter range present, reuse the start vertex of the particle
recorded in `j`'s decay slot if known, otherwise create a fresh vertex at
the FIRST DAUGHTER's position but with `Ctau` taken from `j`'s OWN time
coordinate `T` (source line 420). The slot pair is the one captured from
the state before the mother loop ran (source lines 382-383). Where the
daughter record is unavailable (undefined behaviour in the C++, excluded
by the input contract) the candidate's own record stands in, following
the design document's parenthetical. -/
def decayResolve (input : List Candidate) (s : BState) (j : Nat) (c : Candidate)
    (verts1 : List GenVertex) : Option Nat × List GenVertex :=
  if c.D1 = -1 then (none, verts1)
  else
    let idEnd := (tblGet s.table (j : Int)).2
    if idEnd = -1 then
      let dc := ((if 0 ≤ c.D1 then input.get? c.D1.toNat else none).getD c)
      (some verts1.length, verts1 ++ [⟨dc.X, dc.Y, dc.Z, c.T⟩])
    else
      ((if 0 ≤ idEnd then (s.parts.get? idEnd.toNat).bind MCParticleOut.StartVertex
        else none), verts1)

/-- Side-table update performed while processing candidate `j`: the mother
loop (if a mother range is present) followed by the daughter loop (if a
daughter range is present). -/
def newTable (s : BState) (j : Nat) (c : Candidate) : List (Int × Int) :=
  let t1 := if c.M1 = -1 then s.table else motherLoop j s.table c.M1 c.M2
  if c.D1 = -1 then t1 else daughterLoop j t1 c.D1 c.D2

/-- The particle emitted for candidate `j`: bare fields transcribed from
the candidate (source lines 361-379) plus the resolved vertex references. -/
def emitParticle (input : List Candidate) (j : Nat) (s : BState) (c : Candidate) :
    MCParticleOut :=
  { Typ := c.PID, Status := c.Status, Charge := c.Charge
    Px := c.Px, Py := c.Py, Pz := c.Pz, Mass := c.Mass
    Vx := c.X, Vy := c.Y, Vz := c.Z
    Bits := statusBitsOf c
    StartVertex := (prodResolve s j c).1
    EndVertex := (decayResolve input s j c (prodResolve s j c).2).1 }

/-- One iteration of the main loop of `ConvertMCParticles` over candidate
index `j`. -/
def processCand (input : List Candidate) (j : Nat) (s : BState) : BState :=
  match input.get? j with
  | none => s
  | some c =>
      ⟨s.parts ++ [emitParticle input j s c],
       (decayResolve input s j c (prodResolve s j c).2).2,
       newTable s j c⟩

/-- State of the builder after processing the first `k` candidates
(the side table is pre-sized to the full input length and initialised to
unknown pairs, source lines 346-352). -/
def buildK (input : List Candidate) (k : Nat) : BState :=
  (List.range k).foldl (fun s j => processCand input j s)
    ⟨[], [], List.replicate input.length (-1, -1)⟩

/-- `ConvertMCParticles`: the full pass over the candidate array. -/
def ConvertMCParticles (input : List Candidate) : BState :=
  buildK input input.length

/-- A candidate with only the genealogy fields set, for concrete runs. -/
def mkCand (x y z t m1 m2 d1 d2 : Int) : Candidate :=
  ⟨0, 0, 0, 0, 0, 0, 0, x, y, z, t, m1, m2, d1, d2⟩

-- Concrete scenario 2 of the design document: candidates 0 and 1 share
-- motherRange = [2,2]; candidate 2 has daughterRange = [0,1].
def sibInput : List Candidate :=
  [mkCand 0 0 0 1 2 2 (-1) (-1),
   mkCand 0 0 0 2 2 2 (-1) (-1),
   mkCand 5 6 7 3 (-1) (-1) 0 1]

/-- One entry of a reconstructed object's Delphes reference list
(`GetCandidates()`): the entry's 1-based `GetUniqueID()` and, one level
down, the unique identifiers of the entry's own reference list
(consulted by the photon cascade resolver). -/
structure RefCandidate where
  UID : Nat
  subUIDs : List Nat
deriving DecidableEq, Repr

/-- A reconstructed Delphes object (electron or photon input record):
bare fields and the reference list into the candidate store. -/
structure RecoCandidate where
  PID : Int
  Status : Int
  Charge : Int
  Px : Int
  Py : Int
  Pz : Int
  Mass : Int
  X : Int
  Y : Int
  Z : Int
  candidates : List RefCandidate
deriving DecidableEq, Repr

/-- An emitted reconstructed particle (`fcc::Particle` core fields). -/
structure RecoParticleOut where
  Typ : Int
  Status : Int
  Charge : Int
  Px : Int
  Py : Int
  Pz : Int
  Mass : Int
  Vx : Int
  Vy : Int
  Vz : Int
  Bits : ParticleStatus
deriving DecidableEq, Repr

/-- A `fcc::ParticleMCParticleAssociation` record: the reconstructed-object
handle (`Rec`, by output index) and the truth-particle handle (`Sim`, by
0-based MC index). Both unset on a freshly created record. -/
structure ParticleMCAssociation where
  Rec : Option Nat
  Sim : Option Int
deriving DecidableEq, Repr

/-- Output of the electron/photon converter for one object: the emitted
particle, the association record created for it (one per object, source
lines 466-467 and 550-551) and whether the warning diagnostic was
emitted. -/
structure ConvOut where
  particle : RecoParticleOut
  relation : ParticleMCAssociation
  warned : Bool
deriving DecidableEq, Repr

/-- `ConvertParticles` body for electron `j` (source lines 462-537).
The reference list's first entry's unique identifier is decremented
(source line 487); the bound check `idRefMCPart < colMCParticles->size()`
compares the signed index against an unsigned size, so a negative index
compares large and falls into the unmatched branch; it is modelled as
`0 ≤ idRef ∧ idRef < nMC`. -/
def convertElectron (nMC : Nat) (j : Nat) (c : RecoCandidate) : ConvOut :=
  let bare : ParticleStatus → RecoParticleOut := fun b =>
    ⟨c.PID, c.Status, c.Charge, c.Px, c.Py, c.Pz, c.Mass, c.X, c.Y, c.Z, b⟩
  match c.candidates.head? with
  | some r =>
      let idRef : Int := (r.UID : Int) - 1
      if 0 ≤ idRef ∧ idRef < (nMC : Int) then
        ⟨bare ParticleStatus.Matched, ⟨some j, some idRef⟩, false⟩
      else
        ⟨bare ParticleStatus.Unmatched, ⟨none, none⟩, true⟩
  | none => ⟨bare ParticleStatus.Unmatched, ⟨none, none⟩, true⟩

/-- `ConvertParticles` over the electron array: one output (particle and
association record) per input object. -/
def ConvertParticles (nMC : Nat) (input : List RecoCandidate) : List ConvOut :=
  input.enum.map (fun p => convertElectron nMC p.1 p.2)

/-- First-level qualifying test of the photon resolver (source lines
573-574 and 596-597): the decremented unique identifier is compared
signed (`int index` against `int nMCParticles`), so the test is just
`index < nMCParticles`. -/
def photonDirectHit (nMC : Nat) (r : RefCandidate) : Bool :=
  decide ((r.UID : Int) - 1 < (nMC : Int))

/-- Second-level qualifying test (source lines 579-580 and 606-607). -/
def photonSubHit (nMC : Nat) (u : Nat) : Bool :=
  decide ((u : Int) - 1 < (nMC : Int))

/-- `nRefParticles` of the photon counting loop (source lines 571-583):
the number of first-level reference entries passing the direct test. -/
def nDirect (nMC : Nat) (refs : List RefCandidate) : Nat :=
  refs.countP (photonDirectHit nMC)

/-- `nRefInCascade` of the photon counting loop: second-level hits counted
below every first-level entry that fails the direct test. -/
def nCascade (nMC : Nat) (refs : List RefCandidate) : Nat :=
  (refs.map (fun r =>
    if photonDirectHit nMC r then 0 else r.subUIDs.countP (photonSubHit nMC))).sum

/-- The decremented truth indices of the qualifying hits of one reference
entry, in the order the population loop visits them. -/
def hitsOf (nMC : Nat) (r : RefCandidate) : List Int :=
  if photonDirectHit nMC r then [(r.UID : Int) - 1]
  else (r.subUIDs.filter (photonSubHit nMC)).map (fun u : Nat => (u : Int) - 1)

/-- All qualifying truth hits of a reference list, in visit order. -/
def qualHits (nMC : Nat) (refs : List RefCandidate) : List Int :=
  refs.flatMap (hitsOf nMC)

/-- One step of the photon population loop (source lines 594-614): a
first-level direct hit overwrites the association; a failing first-level
entry has its own reference list scanned, every second-level hit
overwriting the association. -/
def relStep (nMC : Nat) (j : Nat) (a : ParticleMCAssociation) (r : RefCandidate) :
    ParticleMCAssociation :=
  if photonDirectHit nMC r then ⟨some j, some ((r.UID : Int) - 1)⟩
  else
    r.subUIDs.foldl
      (fun a u => if photonSubHit nMC u then ⟨some j, some ((u : Int) - 1)⟩ else a) a

/-- The association record of photon `j` after the population loop. -/
def photonRel (nMC : Nat) (j : Nat) (refs : List RefCandidate) :
    ParticleMCAssociation :=
  refs.foldl (relStep nMC j) ⟨none, none⟩

/-- `ConvertPhotons` body for photon `j` (source lines 546-615): bare
fields hardcoded (type/status/vertex sentinels `-1`, charge 0), status
bits from the two counters (`Unmatched` when their sum differs from 1,
`MatchInCascade` when the single hit is a cascade hit, otherwise the
default bits are retained), then the population loop. -/
def convertPhoton (nMC : Nat) (j : Nat) (c : RecoCandidate) : ConvOut :=
  let nd := nDirect nMC c.candidates
  let nc := nCascade nMC c.candidates
  let bits :=
    if nd + nc ≠ 1 then ParticleStatus.Unmatched
    else if nc ≠ 0 then ParticleStatus.MatchInCascade
    else ParticleStatus.DefaultBits
  ⟨⟨-1, -1, 0, c.Px, c.Py, c.Pz, c.Mass, -1, -1, -1, bits⟩,
   photonRel nMC j c.candidates,
   decide (nd + nc ≠ 1)⟩

/-- `ConvertPhotons` over the photon array: one output per input object. -/
def ConvertPhotons (nMC : Nat) (input : List RecoCandidate) : List ConvOut :=
  input.enum.map (fun p => convertPhoton nMC p.1 p.2)

/-- A Delphes jet input record: the four-momentum components and mass
read by `ConvertJets`. -/
structure JetCand where
  Px : Int
  Py : Int
  Pz : Int
  Mass : Int
deriving DecidableEq, Repr

/-- An emitted `fcc::Jet` core. -/
structure JetOut where
  Area : Int
  Px : Int
  Py : Int
  Pz : Int
  Mass : Int
deriving DecidableEq, Repr

/-- `ConvertJets` (source lines 618-637): one output jet per input entry,
momentum components and mass copied, `Area` set to the sentinel `-1`. -/
def ConvertJets (input : List JetCand) : List JetOut :=
  input.map (fun c => ⟨-1, c.Px, c.Py, c.Pz, c.Mass⟩)

/-- The 1-based identifier contract of the external engine (design
document section 6): every unique identifier in a reference list, at both
levels, is at least 1. -/
def uidsOK (refs : List RefCandidate) : Bool :=
  refs.all (fun r => decide (1 ≤ r.UID) && r.subUIDs.all (fun u => decide (1 ≤ u)))

/-- Count of first-level entries whose decremented index lies in
`[0, nMC)` — the claimed characterisation of a direct truth hit
(refinement-comparison definition following the claims' words). -/
def nDirectSpec (nMC : Nat) (refs : List RefCandidate) : Nat :=
  refs.countP (fun r => decide (0 ≤ (r.UID : Int) - 1 ∧ (r.UID : Int) - 1 < (nMC : Int)))

/-- Count of second-level entries with decremented index in `[0, nMC)`
reached through out-of-range first-level entries (refinement-comparison
definition following the claims' words). -/
def nCascadeSpec (nMC : Nat) (refs : List RefCandidate) : Nat :=
  (refs.map (fun r =>
    if 0 ≤ (r.UID : Int) - 1 ∧ (r.UID : Int) - 1 < (nMC : Int) then 0
    else r.subUIDs.countP
      (fun u : Nat => decide (0 ≤ (u : Int) - 1 ∧ (u : Int) - 1 < (nMC : Int))))).sum

/-- A reconstructed object with only the reference list set, for
concrete runs. -/
def mkReco (refs : List RefCandidate) : RecoCandidate :=
  ⟨0, 0, 0, 0, 0, 0, 0, 0, 0, 0, refs⟩

-- Two candidates: 0 decays into 1 (daughter range [1,1]); the daughter is
-- produced at (1,2,3) at time 9 while the mother's own time is 5.
def c7Input : List Candidate :=
  [mkCand 0 0 0 5 (-1) (-1) 1 1,
   mkCand 1 2 3 9 0 0 (-1) (-1)]

-- Three candidates: 0 is a daughter of 2 (so processing 0 marks 2's decay
-- slot), 1 lists 2 as its daughter range, 2 is the daughter of 1 and the
-- mother of 0.
def c8Input : List Candidate :=
  [mkCand 0 0 0 1 2 2 (-1) (-1),
   mkCand 0 0 0 2 (-1) (-1) 2 2,
   mkCand 7 8 9 3 1 1 0 0]

-- A photon whose reference list holds two first-level direct truth hits
-- (identifiers 1 and 2, both below the truth count 5).
def phAmbig : RecoCandidate := mkReco [⟨1, []⟩, ⟨2, []⟩]

-- A photon whose single out-of-range first-level entry carries two
-- second-level truth hits.
def phCasc2 : RecoCandidate := mkReco [⟨7, [1, 2]⟩]

-- A photon with a single cascade hit: the first-level entry is out of
-- range for a truth count of 3, its reference list holds identifier 1.
def phCasc1 : RecoCandidate := mkReco [⟨5, [1]⟩]

-- An electron whose first reference entry is truth identifier 1.
def elecA : RecoCandidate := mkReco [⟨1, []⟩]

/-- Canonical form of the photon population loop's result: starting from
`a`, visiting the qualifying hits `hits` in order leaves `a` untouched when
there are none and otherwise ends at the last hit. -/
def relOf (j : Nat) (hits : List Int) (a : ParticleMCAssociation) :
    ParticleMCAssociation :=
  match hits.getLast? with
  | none => a
  | some t => ⟨some j, some t⟩

theorem relOf_nil (j : Nat) (a : ParticleMCAssociation) : relOf j [] a = a := rfl

theorem relOf_append (j : Nat) (xs ys : List Int) (a : ParticleMCAssociation) :
    relOf j (xs ++ ys) a = relOf j ys (relOf j xs a) := by
  rcases eq_or_ne ys [] with h | h
  · subst h; simp [relOf]
  · rw [relOf, List.getLast?_append_of_ne_nil _ h]
    rcases hl : ys.getLast? with _ | t
    · exact absurd (List.getLast?_eq_none_iff.mp hl) h
    · rw [relOf, hl]

theorem relOf_cons (j : Nat) (t : Int) (hits : List Int)
    (a : ParticleMCAssociation) :
    relOf j (t :: hits) a = relOf j hits ⟨some j, some t⟩ := by
  have h := relOf_append j [t] hits a
  simpa [relOf] using h

theorem subs_foldl_eq (nMC : Nat) (j : Nat) (subs : List Nat)
    (a : ParticleMCAssociation) :
    subs.foldl
      (fun a u => if photonSubHit nMC u then ⟨some j, some ((u : Int) - 1)⟩ else a) a
      = relOf j ((subs.filter (photonSubHit nMC)).map (fun u : Nat => (u : Int) - 1)) a := by
  induction subs generalizing a with
  | nil => simp [relOf]
  | cons u rest ih =>
      by_cases h : photonSubHit nMC u
      · rw [List.foldl_cons, if_pos h, ih, List.filter_cons_of_pos h,
          List.map_cons, relOf_cons]
      · rw [List.foldl_cons, if_neg h, ih, List.filter_cons_of_neg h]

theorem relStep_eq (nMC : Nat) (j : Nat) (a : ParticleMCAssociation)
    (r : RefCandidate) :
    relStep nMC j a r = relOf j (hitsOf nMC r) a := by
  by_cases h : photonDirectHit nMC r
  · rw [relStep, if_pos h, hitsOf, if_pos h, relOf_cons, relOf_nil]
  · rw [relStep, if_neg h, hitsOf, if_neg h, subs_foldl_eq]

theorem foldl_relStep_eq (nMC : Nat) (j : Nat) (refs : List RefCandidate)
    (a : ParticleMCAssociation) :
    refs.foldl (relStep nMC j) a = relOf j (qualHits nMC refs) a := by
  induction refs generalizing a with
  | nil => simp [qualHits, relOf]
  | cons r rest ih =>
      rw [List.foldl_cons, ih, relStep_eq]
      simp only [qualHits, List.flatMap_cons, relOf_append]

theorem photonRel_eq (nMC : Nat) (j : Nat) (refs : List RefCandidate) :
    photonRel nMC j refs = relOf j (qualHits nMC refs) ⟨none, none⟩ :=
  foldl_relStep_eq nMC j refs ⟨none, none⟩

theorem qualHits_length (nMC : Nat) (refs : List RefCandidate) :
    (qualHits nMC refs).length = nDirect nMC refs + nCascade nMC refs := by
  induction refs with
  | nil => simp [qualHits, nDirect, nCascade]
  | cons r rest ih =>
      rw [qualHits, List.flatMap_cons, List.length_append]
      rw [qualHits] at ih
      rw [nDirect, List.countP_cons, nCascade, List.map_cons, List.sum_cons]
      rw [nDirect, nCascade] at ih
      by_cases h : photonDirectHit nMC r
      · rw [hitsOf, if_pos h]
        simp only [h, if_pos, List.length_singleton]
        omega
      · rw [hitsOf, if_neg h]
        simp only [h, Bool.false_eq_true, if_false, List.length_map,
          ← List.countP_eq_length_filter]
        omega

theorem getLast?_none_iff_nil (l : List Int) : l.getLast? = none ↔ l = [] :=
  List.getLast?_eq_none_iff

/-- Under the engine's 1-based identifier contract, the claimed
`[0, nMC)` characterisation of qualifying hits coincides with the signed
comparisons performed by the photon resolver. -/
theorem spec_counts_eq (nMC : Nat) (refs : List RefCandidate)
    (h : uidsOK refs = true) :
    nDirectSpec nMC refs = nDirect nMC refs ∧
      nCascadeSpec nMC refs = nCascade nMC refs := by
  have key : ∀ u : Nat, 1 ≤ u →
      (decide (0 ≤ (u : Int) - 1 ∧ (u : Int) - 1 < (nMC : Int))
        = decide ((u : Int) - 1 < (nMC : Int))) := by
    intro u hu
    have h0 : (0 : Int) ≤ (u : Int) - 1 := by
      have : (1 : Int) ≤ (u : Int) := by exact_mod_cast hu
      omega
    simp [h0]
  induction refs with
  | nil => simp [nDirectSpec, nDirect, nCascadeSpec, nCascade]
  | cons r rest ih =>
      rw [uidsOK, List.all_cons, Bool.and_eq_true, Bool.and_eq_true] at h
      obtain ⟨⟨h1, h2⟩, h3⟩ := h
      have h1' : 1 ≤ r.UID := of_decide_eq_true h1
      have h2' : ∀ u ∈ r.subUIDs, 1 ≤ u := by
        intro u hu
        exact of_decide_eq_true (List.all_eq_true.mp h2 u hu)
      have ihr := ih h3
      constructor
      · rw [nDirectSpec, List.countP_cons, nDirect, List.countP_cons]
        rw [nDirectSpec, nDirect] at ihr
        rw [ihr.1, key r.UID h1', photonDirectHit]
      · rw [nCascadeSpec, List.map_cons, List.sum_cons, nCascade,
          List.map_cons, List.sum_cons]
        rw [nCascadeSpec, nCascade] at ihr
        rw [ihr.2]
        have hsub : r.subUIDs.countP
            (fun u : Nat => decide (0 ≤ (u : Int) - 1 ∧ (u : Int) - 1 < (nMC : Int)))
            = r.subUIDs.countP (photonSubHit nMC) := by
          apply List.countP_congr
          intro u hu
          rw [photonSubHit, key u (h2' u hu)]
        have hguard : (0 ≤ (r.UID : Int) - 1 ∧ (r.UID : Int) - 1 < (nMC : Int))
            ↔ ((r.UID : Int) - 1 < (nMC : Int)) := by
          have h0 : (0 : Int) ≤ (r.UID : Int) - 1 := by
            have : (1 : Int) ≤ (r.UID : Int) := by exact_mod_cast h1'
            omega
          tauto
      -- align the two if-guards, then close
        by_cases hd : (r.UID : Int) - 1 < (nMC : Int)
        · rw [if_pos (hguard.mpr hd), if_pos]
          rw [photonDirectHit]
          exact decide_eq_true hd
        · rw [if_neg (fun hc => hd (hguard.mp hc)), if_neg, hsub]
          rw [photonDirectHit]
          simp [hd]

theorem processCand_of_none (input : List Candidate) (j : Nat) (s : BState)
    (h : input.get? j = none) : processCand input j s = s := by
  simp only [processCand, h]

theorem processCand_parts (input : List Candidate) (j : Nat) (s : BState)
    (c : Candidate) (h : input.get? j = some c) :
    (processCand input j s).parts = s.parts ++ [emitParticle input j s c] := by
  simp only [processCand, h]

theorem buildK_zero (input : List Candidate) :
    buildK input 0 = ⟨[], [], List.replicate input.length (-1, -1)⟩ := rfl

theorem buildK_succ (input : List Candidate) (k : Nat) :
    buildK input (k + 1) = processCand input k (buildK input k) := by
  rw [buildK, List.range_succ, List.foldl_append]
  rfl

theorem buildK_parts_len (input : List Candidate) :
    ∀ k, k ≤ input.length → (buildK input k).parts.length = k := by
  intro k
  induction k with
  | zero => intro _; rfl
  | succ k ih =>
      intro hk
      rcases hck : input.get? k with _ | c
      · exact absurd (List.get?_eq_none.mp hck) (by omega)
      · rw [buildK_succ, processCand_parts input k _ c hck, List.length_append,
          ih (Nat.le_of_succ_le hk)]
        rfl

theorem processCand_get?_lt (input : List Candidate) (k : Nat) (s : BState)
    (j : Nat) (h : j < s.parts.length) :
    (processCand input k s).parts.get? j = s.parts.get? j := by
  rcases hck : input.get? k with _ | c
  · rw [processCand_of_none input k s hck]
  · rw [processCand_parts input k s c hck]
    exact List.get?_append h

theorem buildK_get?_emit (input : List Candidate) (j : Nat) (c : Candidate)
    (hc : input.get? j = some c) :
    ∀ k, j < k → k ≤ input.length →
      (buildK input k).parts.get? j
        = some (emitParticle input j (buildK input j) c) := by
  intro k
  induction k with
  | zero => intro hjk _; exact absurd hjk (Nat.not_lt_zero j)
  | succ k ih =>
      intro hjk hkn
      rcases Nat.lt_or_ge j k with h | h
      · rw [buildK_succ, processCand_get?_lt]
        · exact ih h (Nat.le_of_succ_le hkn)
        · rw [buildK_parts_len input k (Nat.le_of_succ_le hkn)]
          exact h
      · have hjeq : j = k := by omega
        subst hjeq
        rw [buildK_succ, processCand_parts input j _ c hc]
        have hlen : (buildK input j).parts.length = j :=
          buildK_parts_len input j (Nat.le_of_succ_le hkn)
        have hcat := List.get?_concat_length (buildK input j).parts
          (emitParticle input j (buildK input j) c)
        rw [hlen] at hcat
        exact hcat

theorem ConvertParticles_get? (nMC : Nat) (input : List RecoCandidate) (j : Nat) :
    (ConvertParticles nMC input).get? j
      = (input.get? j).map (convertElectron nMC j) := by
  rw [ConvertParticles, List.get?_map, List.get?_enum]
  cases input.get? j <;> rfl

theorem ConvertPhotons_get? (nMC : Nat) (input : List RecoCandidate) (j : Nat) :
    (ConvertPhotons nMC input).get? j
      = (input.get? j).map (convertPhoton nMC j) := by
  rw [ConvertPhotons, List.get?_map, List.get?_enum]
  cases input.get? j <;> rfl

theorem ConvertParticles_length (nMC : Nat) (input : List RecoCandidate) :
    (ConvertParticles nMC input).length = input.length := by
  rw [ConvertParticles, List.length_map, List.enum_length]

theorem ConvertPhotons_length (nMC : Nat) (input : List RecoCandidate) :
    (ConvertPhotons nMC input).length = input.length := by
  rw [ConvertPhotons, List.length_map, List.enum_length]

/-- C1: evaluation at the design document's own scenario 2 (siblings 0 and
1 with identical mother range `[2,2]`, mother 2 processed after them). The
two siblings' start vertices are DISTINCT vertex instances (arena ids 0
and 1) and two vertices exist, contradicting the claimed structural
sharing for siblings processed before their mother. -/
theorem C1_sibling_vertex_duplication :
    ((sibInput.get? 0).map (fun c => (c.M1, c.M2)) = some (2, 2)) ∧
    ((sibInput.get? 1).map (fun c => (c.M1, c.M2)) = some (2, 2)) ∧
    ((ConvertMCParticles sibInput).parts.map MCParticleOut.StartVertex
      = [some 0, some 1, none]) ∧
    (ConvertMCParticles sibInput).verts.length = 2 ∧
    (some 0 : Option Nat) ≠ some 1 := by decide

/-- C7 counterexample: candidate 0 decays into candidate 1; the daughter's
spacetime position is `(1,2,3,9)` but the created end vertex carries
`Ctau = 5`, candidate 0's own time, not the daughter's time 9. -/
theorem C7_ctau_counterexample :
    (ConvertMCParticles c7Input).verts.get? 0 = some ⟨1, 2, 3, 5⟩ ∧
    (c7Input.get? 1).map Candidate.T = some 9 ∧
    ((ConvertMCParticles c7Input).verts.get? 0).map GenVertex.Ctau ≠ some 9 := by
  decide

/-- C7 amended: for a candidate `j` with a daughter range whose decay-vertex
slot is still unknown and whose first daughter record is available, the
newly created end vertex takes its position from the first daughter but its
`Ctau` from candidate `j`'s OWN time coordinate. -/
theorem C7_decay_vertex_fields (input : List Candidate) (s : BState) (j : Nat)
    (c dc : Candidate) (verts1 : List GenVertex)
    (hD : ¬ c.D1 = -1) (hslot : (tblGet s.table (j : Int)).2 = -1)
    (hpos : 0 ≤ c.D1) (hdc : input.get? c.D1.toNat = some dc) :
    decayResolve input s j c verts1
      = (some verts1.length, verts1 ++ [⟨dc.X, dc.Y, dc.Z, c.T⟩]) := by
  have hdc2 : input[c.D1.toNat]? = some dc := by
    rw [← List.get?_eq_getElem?]
    exact hdc
  simp [decayResolve, hD, hslot, hpos, hdc2]

/-- C7 amended, witness: concrete instantiation on `c7Input` at candidate 0
with the initial builder state. -/
theorem C7_decay_vertex_fields_witness :
    (¬ (mkCand 0 0 0 5 (-1) (-1) 1 1).D1 = -1) ∧
    ((tblGet (buildK c7Input 0).table 0).2 = -1) ∧
    decayResolve c7Input (buildK c7Input 0) 0 (mkCand 0 0 0 5 (-1) (-1) 1 1) []
      = (some 0, [⟨1, 2, 3, 5⟩]) := by
  refine ⟨by decide, by decide, ?_⟩
  have h := C7_decay_vertex_fields c7Input (buildK c7Input 0) 0
    (mkCand 0 0 0 5 (-1) (-1) 1 1) (mkCand 1 2 3 9 0 0 (-1) (-1)) []
    (by decide) (by decide) (by decide) (by decide)
  simpa using h

/-- C8: evaluation at a failing input. Candidate 1 carries daughter range
`[2,2]` and candidate 2's production-vertex slot is unknown when 1 is
processed; yet after processing candidate 1 the slot is STILL unknown
(`-1`), because the loop at source lines 423-425 guards on the decay entry
(which candidate 0's mother loop had already set) instead of the
production entry. Particle 2 therefore creates a fresh vertex (id 2)
instead of sharing candidate 1's end vertex (id 1). -/
theorem C8_daughter_slot_guard_bug :
    ((tblGet (buildK c8Input 1).table 2).1 = -1) ∧
    ((tblGet (buildK c8Input 2).table 2).1 = -1) ∧
    (((buildK c8Input 2).parts.map MCParticleOut.EndVertex).get? 1
      = some (some 1)) ∧
    (((ConvertMCParticles c8Input).parts.map MCParticleOut.StartVertex).get? 2
      = some (some 2)) ∧
    (ConvertMCParticles c8Input).verts.length = 3 := by decide

/-- C9: the jet converter emits exactly one output per input entry, copies
the momentum components and the mass, and sets the area to the sentinel
`-1` on every jet. -/
theorem C9_jets_passthrough (input : List JetCand) :
    (ConvertJets input).length = input.length ∧
    ∀ j c, input.get? j = some c →
      (ConvertJets input).get? j = some ⟨-1, c.Px, c.Py, c.Pz, c.Mass⟩ := by
  refine ⟨by rw [ConvertJets, List.length_map], ?_⟩
  intro j c h
  rw [ConvertJets, List.get?_map, h]
  rfl

/-- C9 witness: one concrete jet. -/
theorem C9_jets_passthrough_witness :
    (ConvertJets [⟨1, 2, 3, 4⟩]).length = 1 ∧
    (ConvertJets [⟨1, 2, 3, 4⟩]).get? 0 = some ⟨-1, 1, 2, 3, 4⟩ :=
  ⟨(C9_jets_passthrough [⟨1, 2, 3, 4⟩]).1,
   (C9_jets_passthrough [⟨1, 2, 3, 4⟩]).2 0 ⟨1, 2, 3, 4⟩ rfl⟩

/-- C10: the photon population loop overwrites the association once per
qualifying hit in reference-list order, so the final record holds the last
qualifying hit (and the reconstructed handle exactly when a qualifying hit
exists); the outcome is a function of the reference list, hence
deterministic in its order. -/
theorem C10_photon_last_qualifying_hit (nMC j : Nat) (c : RecoCandidate) :
    (convertPhoton nMC j c).relation =
      ⟨if qualHits nMC c.candidates = [] then none else some j,
       (qualHits nMC c.candidates).getLast?⟩ := by
  show photonRel nMC j c.candidates = _
  rw [photonRel_eq, relOf]
  rcases hl : (qualHits nMC c.candidates).getLast? with _ | t
  · have h0 : qualHits nMC c.candidates = [] := (getLast?_none_iff_nil _).mp hl
    simp [h0]
  · have hne : ¬ qualHits nMC c.candidates = [] := by
      intro h0
      rw [h0] at hl
      exact Option.noConfusion hl
    simp [hne]

/-- C4: direct-mode electron matching. With a non-empty reference list,
the first entry's decremented identifier decides the outcome: inside
`[0, nMC)` the electron is `Matched` and the association points at that
truth index; otherwise (negative indices included, which the unsigned
size comparison rejects) the electron is `Unmatched`, the diagnostic is
emitted and the association stays unpopulated. -/
theorem C4_electron_direct_mode (nMC j : Nat) (c : RecoCandidate)
    (r : RefCandidate) (h : c.candidates.head? = some r) :
    ((0 ≤ (r.UID : Int) - 1 ∧ (r.UID : Int) - 1 < (nMC : Int)) →
      (convertElectron nMC j c).particle.Bits = ParticleStatus.Matched ∧
      (convertElectron nMC j c).relation = ⟨some j, some ((r.UID : Int) - 1)⟩ ∧
      (convertElectron nMC j c).warned = false) ∧
    (¬ (0 ≤ (r.UID : Int) - 1 ∧ (r.UID : Int) - 1 < (nMC : Int)) →
      (convertElectron nMC j c).particle.Bits = ParticleStatus.Unmatched ∧
      (convertElectron nMC j c).relation = ⟨none, none⟩ ∧
      (convertElectron nMC j c).warned = true) := by
  constructor <;> intro hg
  · simp only [convertElectron, h]
    rw [if_pos hg]
    exact ⟨rfl, rfl, rfl⟩
  · simp only [convertElectron, h]
    rw [if_neg hg]
    exact ⟨rfl, rfl, rfl⟩

/-- C4 witness: electron whose first reference entry is identifier 1 with
truth count 3. -/
theorem C4_electron_direct_mode_witness :
    (elecA.candidates.head? = some ⟨1, []⟩) ∧
    (0 ≤ ((1 : Nat) : Int) - 1 ∧ ((1 : Nat) : Int) - 1 < ((3 : Nat) : Int)) ∧
    (convertElectron 3 0 elecA).particle.Bits = ParticleStatus.Matched ∧
    (convertElectron 3 0 elecA).relation = ⟨some 0, some 0⟩ := by
  refine ⟨by decide, by decide, ?_⟩
  have h := (C4_electron_direct_mode 3 0 elecA ⟨1, []⟩ (by decide)).1 (by decide)
  exact ⟨h.1, by rw [h.2.1]; decide⟩

/-- C6: every emitted particle carries exactly one status bit from
`{Beam, Stable, Decayed}`, assigned first-match: `Beam` when the mother
range is absent (regardless of daughters), else `Stable` when the daughter
range is absent, else `Decayed`. -/
theorem C6_status_bits (input : List Candidate) (j : Nat) (c : Candidate)
    (h : input.get? j = some c) :
    ∃ p, (ConvertMCParticles input).parts.get? j = some p ∧
      p.Bits = (if c.M1 = -1 then ParticleStatus.Beam
        else if c.D1 = -1 then ParticleStatus.Stable
        else ParticleStatus.Decayed) ∧
      (p.Bits = ParticleStatus.Beam ∨ p.Bits = ParticleStatus.Stable ∨
        p.Bits = ParticleStatus.Decayed) := by
  obtain ⟨hj, -⟩ := List.get?_eq_some.mp h
  refine ⟨emitParticle input j (buildK input j) c, ?_, ?_, ?_⟩
  · exact buildK_get?_emit input j c h input.length hj (le_refl _)
  · rfl
  · show statusBitsOf c = _ ∨ statusBitsOf c = _ ∨ statusBitsOf c = _
    rw [statusBitsOf]
    split
    · exact Or.inl rfl
    · split
      · exact Or.inr (Or.inl rfl)
      · exact Or.inr (Or.inr rfl)

/-- C6 witness: candidate 2 of the concrete three-candidate input has no
mother range and a daughter range, and its emitted particle is `Beam`. -/
theorem C6_status_bits_witness :
    ∃ p, (ConvertMCParticles sibInput).parts.get? 2 = some p ∧
      p.Bits = (if (mkCand 5 6 7 3 (-1) (-1) 0 1).M1 = -1 then ParticleStatus.Beam
        else if (mkCand 5 6 7 3 (-1) (-1) 0 1).D1 = -1 then ParticleStatus.Stable
        else ParticleStatus.Decayed) ∧
      (p.Bits = ParticleStatus.Beam ∨ p.Bits = ParticleStatus.Stable ∨
        p.Bits = ParticleStatus.Decayed) :=
  C6_status_bits sibInput 2 (mkCand 5 6 7 3 (-1) (-1) 0 1) (by decide)

/-- C2 counterexample: a photon with two direct truth hits is `Unmatched`,
yet its association record exists and is fully populated (it points back
at the photon and at truth index 1), so the association count is 1 for an
object whose status is neither `Matched` nor `MatchInCascade`. -/
theorem C2_record_for_unmatched :
    (ConvertPhotons 5 [phAmbig]).length = 1 ∧
    ((ConvertPhotons 5 [phAmbig]).get? 0).map
        (fun o => (o.particle.Bits, o.relation))
      = some (ParticleStatus.Unmatched, ⟨some 0, some 1⟩) := by decide

/-- C2 amended: exactly one association record is created per reconstructed
object, regardless of match status; an electron's record is populated
exactly when its status is `Matched`, and a photon's record is populated
exactly when at least one qualifying truth hit exists — which includes
ambiguous (`Unmatched`) photons. -/
theorem C2_match_cardinality_amended :
    (∀ (nMC : Nat) (elecs : List RecoCandidate),
      (ConvertParticles nMC elecs).length = elecs.length) ∧
    (∀ (nMC : Nat) (phos : List RecoCandidate),
      (ConvertPhotons nMC phos).length = phos.length) ∧
    (∀ (nMC j : Nat) (c : RecoCandidate),
      ((convertElectron nMC j c).relation.Sim.isSome = true
        ↔ (convertElectron nMC j c).particle.Bits = ParticleStatus.Matched)) ∧
    (∀ (nMC j : Nat) (c : RecoCandidate),
      ((convertPhoton nMC j c).relation.Sim.isSome = true
        ↔ ¬ qualHits nMC c.candidates = [])) := by
  refine ⟨ConvertParticles_length, ConvertPhotons_length, ?_, ?_⟩
  · intro nMC j c
    rcases h : c.candidates.head? with _ | r
    · simp [convertElectron, h]
    · simp only [convertElectron, h]
      by_cases hg : (0 ≤ (r.UID : Int) - 1 ∧ (r.UID : Int) - 1 < (nMC : Int))
      · rw [if_pos hg]
        simp
      · rw [if_neg hg]
        simp
  · intro nMC j c
    show (photonRel nMC j c.candidates).Sim.isSome = true ↔ _
    rw [photonRel_eq, relOf]
    rcases hl : (qualHits nMC c.candidates).getLast? with _ | t
    · have h0 := (getLast?_none_iff_nil _).mp hl
      simp [h0]
    · have hne : ¬ qualHits nMC c.candidates = [] := by
        intro h0
        rw [h0] at hl
        exact Option.noConfusion hl
      simp [hne]

/-- C3 counterexample: a photon whose single out-of-range first-level entry
carries two second-level truth hits has `direct + cascade = 2 ≠ 1`; it is
marked `Unmatched` with a diagnostic, BUT an association to a truth
particle (the last qualifying hit, index 1) is still created. -/
theorem C3_association_despite_ambiguity :
    ((ConvertPhotons 5 [phCasc2]).get? 0).map
        (fun o => (o.particle.Bits, o.warned, o.relation.Sim))
      = some (ParticleStatus.Unmatched, true, some 1) := by decide

/-- C3 amended: a photon with `direct + cascade ≠ 1` (counts per the
claimed `[0, N)` characterisation, which under the engine's 1-based
identifier contract coincides with the code's signed comparisons) is
marked `Unmatched` and the diagnostic is emitted; however the association
is unpopulated only in the zero-hit case — with two or more qualifying
hits it still points at a truth particle. -/
theorem C3_ambiguity_amended (nMC j : Nat) (c : RecoCandidate)
    (hu : uidsOK c.candidates = true)
    (hne : ¬ nDirectSpec nMC c.candidates + nCascadeSpec nMC c.candidates = 1) :
    (convertPhoton nMC j c).particle.Bits = ParticleStatus.Unmatched ∧
    (convertPhoton nMC j c).warned = true ∧
    ((convertPhoton nMC j c).relation.Sim = none ↔
      nDirectSpec nMC c.candidates + nCascadeSpec nMC c.candidates = 0) := by
  obtain ⟨hd, hc⟩ := spec_counts_eq nMC c.candidates hu
  rw [hd, hc] at hne
  refine ⟨?_, ?_, ?_⟩
  · show (if nDirect nMC c.candidates + nCascade nMC c.candidates ≠ 1
        then ParticleStatus.Unmatched
        else if nCascade nMC c.candidates ≠ 0 then ParticleStatus.MatchInCascade
        else ParticleStatus.DefaultBits) = ParticleStatus.Unmatched
    rw [if_pos hne]
  · show decide (nDirect nMC c.candidates + nCascade nMC c.candidates ≠ 1) = true
    exact decide_eq_true hne
  · rw [hd, hc]
    show (photonRel nMC j c.candidates).Sim = none ↔ _
    rw [photonRel_eq, relOf]
    rcases hl : (qualHits nMC c.candidates).getLast? with _ | t
    · have h0 := (getLast?_none_iff_nil _).mp hl
      have hlen : (qualHits nMC c.candidates).length = 0 := by
        rw [h0]
        rfl
      rw [qualHits_length] at hlen
      simp [hlen]
    · have hne2 : ¬ qualHits nMC c.candidates = [] := by
        intro h0
        rw [h0] at hl
        exact Option.noConfusion hl
      have hlen : ¬ (qualHits nMC c.candidates).length = 0 := by
        intro h0
        exact hne2 (List.length_eq_zero.mp h0)
      rw [qualHits_length] at hlen
      simp [hlen]

/-- C3 amended, witness: the two-cascade-hit photon with truth count 5. -/
theorem C3_ambiguity_amended_witness :
    (uidsOK phCasc2.candidates = true) ∧
    (¬ nDirectSpec 5 phCasc2.candidates + nCascadeSpec 5 phCasc2.candidates = 1) ∧
    ((convertPhoton 5 0 phCasc2).particle.Bits = ParticleStatus.Unmatched ∧
     (convertPhoton 5 0 phCasc2).warned = true ∧
     ((convertPhoton 5 0 phCasc2).relation.Sim = none ↔
       nDirectSpec 5 phCasc2.candidates + nCascadeSpec 5 phCasc2.candidates = 0)) :=
  ⟨by decide, by decide, C3_ambiguity_amended 5 0 phCasc2 (by decide) (by decide)⟩

/-- C5: cascade precedence. Under the 1-based identifier contract: a photon
with exactly one direct hit and no cascade hit is never `Unmatched` (its
bits stay at the retained default); a photon with no direct hit and exactly
one cascade hit is `MatchInCascade` and its association points at the truth
index of that second-level hit. -/
theorem C5_cascade_precedence (nMC j : Nat) (c : RecoCandidate)
    (hu : uidsOK c.candidates = true) :
    ((nDirectSpec nMC c.candidates = 1 ∧ nCascadeSpec nMC c.candidates = 0) →
      ¬ (convertPhoton nMC j c).particle.Bits = ParticleStatus.Unmatched) ∧
    ((nDirectSpec nMC c.candidates = 0 ∧ nCascadeSpec nMC c.candidates = 1) →
      (convertPhoton nMC j c).particle.Bits = ParticleStatus.MatchInCascade ∧
      ∃ r, r ∈ c.candidates ∧ photonDirectHit nMC r = false ∧
        ∃ u, u ∈ r.subUIDs ∧ photonSubHit nMC u = true ∧
          (convertPhoton nMC j c).relation.Sim = some ((u : Int) - 1)) := by
  obtain ⟨hd, hc⟩ := spec_counts_eq nMC c.candidates hu
  constructor
  · rintro ⟨h1, h2⟩
    rw [hd] at h1
    rw [hc] at h2
    show ¬ (if nDirect nMC c.candidates + nCascade nMC c.candidates ≠ 1
        then ParticleStatus.Unmatched
        else if nCascade nMC c.candidates ≠ 0 then ParticleStatus.MatchInCascade
        else ParticleStatus.DefaultBits) = ParticleStatus.Unmatched
    rw [if_neg (not_not_intro (by omega))]
    rw [if_neg (not_not_intro h2)]
    decide
  · rintro ⟨h1, h2⟩
    rw [hd] at h1
    rw [hc] at h2
    have hb : (convertPhoton nMC j c).particle.Bits
        = ParticleStatus.MatchInCascade := by
      show (if nDirect nMC c.candidates + nCascade nMC c.candidates ≠ 1
          then ParticleStatus.Unmatched
          else if nCascade nMC c.candidates ≠ 0 then ParticleStatus.MatchInCascade
          else ParticleStatus.DefaultBits) = ParticleStatus.MatchInCascade
      rw [if_neg (not_not_intro (by omega))]
      rw [if_pos (by omega)]
    refine ⟨hb, ?_⟩
    have hlen : (qualHits nMC c.candidates).length = 1 := by
      rw [qualHits_length]
      omega
    obtain ⟨t, ht⟩ := List.length_eq_one.mp hlen
    have hsim : (convertPhoton nMC j c).relation.Sim = some t := by
      show (photonRel nMC j c.candidates).Sim = some t
      rw [photonRel_eq, ht, relOf, List.getLast?_singleton]
    have hmem : t ∈ qualHits nMC c.candidates := by
      rw [ht]
      exact List.mem_singleton.mpr rfl
    obtain ⟨r, hr, htr⟩ := List.mem_flatMap.mp hmem
    have h1' : c.candidates.countP (photonDirectHit nMC) = 0 := h1
    have hrf : photonDirectHit nMC r = false := by
      rcases hb2 : photonDirectHit nMC r with _ | _
      · rfl
      · exact absurd hb2 (List.countP_eq_zero.mp h1' r hr)
    rw [hitsOf, if_neg (by simp [hrf])] at htr
    obtain ⟨u, hu2, htu⟩ := List.mem_map.mp htr
    obtain ⟨hu3, hu4⟩ := List.mem_filter.mp hu2
    refine ⟨r, hr, hrf, u, hu3, hu4, ?_⟩
    rw [hsim, ← htu]

/-- C5 witness: the single-cascade-hit photon with truth count 3 resolves
to `MatchInCascade` with the association at truth index 0. -/
theorem C5_cascade_precedence_witness :
    (uidsOK phCasc1.candidates = true) ∧
    (nDirectSpec 3 phCasc1.candidates = 0 ∧ nCascadeSpec 3 phCasc1.candidates = 1) ∧
    ((convertPhoton 3 0 phCasc1).particle.Bits = ParticleStatus.MatchInCascade ∧
      ∃ r, r ∈ phCasc1.candidates ∧ photonDirectHit 3 r = false ∧
        ∃ u, u ∈ r.subUIDs ∧ photonSubHit 3 u = true ∧
          (convertPhoton 3 0 phCasc1).relation.Sim = some ((u : Int) - 1)) :=
  ⟨by decide, by decide,
   (C5_cascade_precedence 3 0 phCasc1 (by decide)).2 (by decide)⟩
